import Mathlib

/-!
Shallow embedding of the GwenOS hardware-facing core (vga.rs, serial.rs,
interrupts.rs) and proofs of the specification's claims about it.

Bytes are modelled as `Nat`; the VGA buffer is modelled as a total function
from (row, column) to screen characters, with all operations translated
directly from `src/vga.rs`.
-/

namespace GwenOS

namespace Vga

/-- `VGA_WIDTH` from vga.rs: screen width in characters. -/
def VGA_WIDTH : Nat := 80

/-- `VGA_HEIGHT` from vga.rs: screen height in rows. -/
def VGA_HEIGHT : Nat := 25

/-- `ScreenChar` from vga.rs: one display cell, an ASCII byte plus a color
attribute byte. -/
structure ScreenChar where
  ascii_character : Nat
  color_code : Nat
deriving DecidableEq

/-- The 25×80 volatile VGA text buffer, modelled as a total function on
(row, column); only indices below `VGA_HEIGHT`/`VGA_WIDTH` correspond to
real cells. -/
def VgaBuffer : Type := Nat → Nat → ScreenChar

/-- `Writer` from vga.rs: current column, current row, current color code,
and the buffer. -/
structure Writer where
  column_position : Nat
  row_position : Nat
  color_code : Nat
  buffer : VgaBuffer

/-- `ColorCode::new(Color::White, Color::Black)` = (0 <<< 4) ||| 15 = 0x0f,
the attribute of the global `WRITER` at initialization; `set_color` is dead
code, so this is the writer's attribute throughout execution. -/
def defaultColorCode : Nat := 0x0f

/-- The blank cell written by `clear_row`: a space with the given attribute. -/
def blankChar (color : Nat) : ScreenChar :=
  { ascii_character := 0x20, color_code := color }

/-- `Writer::clear_row`: write the blank character with the current color
code into every column of `row`. The column loop is embedded as its
functional effect on the buffer. -/
def Writer.clear_row (w : Writer) (row : Nat) : Writer :=
  { w with buffer := fun r c =>
      if r = row ∧ c < VGA_WIDTH then blankChar w.color_code else w.buffer r c }

/-- `Writer::scroll`: copy every row's cells up by one row (row `r` receives
row `r+1` for `r+1 < VGA_HEIGHT`), then clear the last row. In the source the
copy loop runs rows in increasing order, so each read of row `r` happens
before the (later) write to row `r`; its net effect is the shift below. -/
def Writer.scroll (w : Writer) : Writer :=
  let copied : VgaBuffer := fun r c =>
    if r + 1 < VGA_HEIGHT ∧ c < VGA_WIDTH then w.buffer (r + 1) c else w.buffer r c
  Writer.clear_row { w with buffer := copied } (VGA_HEIGHT - 1)

/-- `Writer::new_line`: advance to the next row, scrolling when already on
the last row; reset the column to 0. -/
def Writer.new_line (w : Writer) : Writer :=
  let w1 := if w.row_position < VGA_HEIGHT - 1 then
    { w with row_position := w.row_position + 1 }
  else
    w.scroll
  { w1 with column_position := 0 }

/-- `Writer::write_byte`: on line feed perform the newline transition;
otherwise, after a newline transition if the current row is full, write the
byte with the current color at the cursor and advance the column. -/
def Writer.write_byte (w : Writer) (byte : Nat) : Writer :=
  if byte = 0x0a then
    w.new_line
  else
    let w1 := if w.column_position ≥ VGA_WIDTH then w.new_line else w
    let row := w1.row_position
    let col := w1.column_position
    { w1 with
      buffer := fun r c =>
        if r = row ∧ c = col then
          { ascii_character := byte, color_code := w1.color_code }
        else w1.buffer r c,
      column_position := col + 1 }

/-- Iterated `write_byte` over a byte sequence. -/
def Writer.write_bytes (w : Writer) (s : List Nat) : Writer :=
  s.foldl Writer.write_byte w

/-- `Writer::write_string`: for each byte, pass printable ASCII (0x20–0x7e)
and line feed through to `write_byte`, and pass 0xfe for every other byte. -/
def Writer.write_string (w : Writer) (s : List Nat) : Writer :=
  s.foldl (fun acc byte =>
    if (0x20 ≤ byte ∧ byte ≤ 0x7e) ∨ byte = 0x0a then acc.write_byte byte
    else acc.write_byte 0xfe) w

/-- The per-byte substitution performed by `write_string` before it calls
`write_byte`: printable ASCII and line feed pass unchanged, everything else
becomes the unknown-glyph code 0xfe. -/
def substituteByte (byte : Nat) : Nat :=
  if (0x20 ≤ byte ∧ byte ≤ 0x7e) ∨ byte = 0x0a then byte else 0xfe

/-- The per-byte substitution performed by `write_string_at`: printable
ASCII passes unchanged, everything else (line feed included) becomes 0xfe. -/
def substitutePrintable (byte : Nat) : Nat :=
  if 0x20 ≤ byte ∧ byte ≤ 0x7e then byte else 0xfe

/-- The loop body of `Writer::write_string_at`: starting at `current_col`,
write each byte (substituted via `substitutePrintable`) with the given color
into `row`, stopping (`break`) as soon as the column reaches `VGA_WIDTH`. -/
def writeAtLoop (row color : Nat) : List Nat → Nat → VgaBuffer → VgaBuffer
  | [], _, buf => buf
  | byte :: rest, current_col, buf =>
    if current_col ≥ VGA_WIDTH then buf
    else
      writeAtLoop row color rest (current_col + 1) (fun r c =>
        if r = row ∧ c = current_col then
          { ascii_character := substitutePrintable byte, color_code := color }
        else buf r c)

/-- `Writer::write_string_at`: no-op when `row` is out of range, otherwise
run the bounded write loop; cursor and current color are untouched. -/
def Writer.write_string_at (w : Writer) (s : List Nat) (row col color : Nat) :
    Writer :=
  if row ≥ VGA_HEIGHT then w
  else { w with buffer := writeAtLoop row color s col w.buffer }

/-- `Writer::clear_screen`: clear every row in order, then reset the cursor
to row 0, column 0. -/
def Writer.clear_screen (w : Writer) : Writer :=
  let w1 := (List.range VGA_HEIGHT).foldl Writer.clear_row w
  { w1 with column_position := 0, row_position := 0 }

/-- The global `WRITER` at initialization: cursor (0,0), default attribute,
over an arbitrary initial buffer content (the VGA memory's prior content). -/
def initWriter (buf : VgaBuffer) : Writer :=
  { column_position := 0
    row_position := 0
    color_code := defaultColorCode
    buffer := buf }

/-- A concrete non-trivial buffer content used to instantiate theorems. -/
def sampleBuffer : VgaBuffer :=
  fun r c => { ascii_character := (r + c) % 256, color_code := 0x07 }

/-- A concrete byte sequence mixing printable bytes, a line feed and
non-printable bytes, used to instantiate theorems. -/
def demoBytes : List Nat := [0x48, 0x0a, 0x01, 0x7f, 0x41]

/-- A full row of 80 printable bytes, used to instantiate theorems. -/
def row80bytes : List Nat := List.replicate VGA_WIDTH 0x41

/-- A concrete writer sitting at column 0 of the last row with the default
attribute, used to instantiate theorems. -/
def lastRowWriter : Writer :=
  { column_position := 0
    row_position := VGA_HEIGHT - 1
    color_code := defaultColorCode
    buffer := sampleBuffer }

end Vga

namespace Serial

/-- An observable port-I/O operation issued by the serial driver: a read of
the line-status register (with the value it returned) or a write of a byte
to the data register. -/
inductive PortOp where
  | readLSR (value : Nat)
  | writeData (byte : Nat)
deriving DecidableEq

/-- `SerialWriter::is_transmit_empty`: bit 5 (mask 0x20) of a line-status
register reading. -/
def is_transmit_empty (status : Nat) : Bool :=
  decide ((status &&& 0x20) ≠ 0)

/-- The busy-wait loop of `SerialWriter::write_byte`, run against an oracle
`statuses` giving the value returned by the `i`-th line-status read. The
loop itself is unbounded in the source; `fuel` bounds it here, and `none`
means the wait did not terminate within `fuel` reads. On success the result
is the exact port-operation trace the call issued, in order. -/
def write_byte_aux (statuses : Nat → Nat) (byte : Nat) :
    Nat → Nat → Option (List PortOp)
  | _, 0 => none
  | i, fuel + 1 =>
    let v := statuses i
    if is_transmit_empty v then
      some [PortOp.readLSR v, PortOp.writeData byte]
    else
      (write_byte_aux statuses byte (i + 1) fuel).map (fun ops => PortOp.readLSR v :: ops)

/-- `SerialWriter::write_byte`: busy-wait on the line-status register, then
write the byte to the data register; the trace starts at the first status
read. -/
def write_byte (statuses : Nat → Nat) (byte : Nat) (fuel : Nat) :
    Option (List PortOp) :=
  write_byte_aux statuses byte 0 fuel

/-- A concrete line-status oracle: busy for the first two reads, then the
transmit-holding-register-empty bit (0x20) is set. -/
def readyAfterTwo : Nat → Nat :=
  fun i => if i < 2 then 0 else 0x20

/-- A concrete line-status oracle that never reports transmit-empty. -/
def alwaysBusy : Nat → Nat :=
  fun _ => 0

end Serial

namespace Interrupts

/-- The six `serial::write_line` payloads emitted by `double_fault_handler`
in interrupts.rs, in source order. -/
def double_fault_messages : List String :=
  [ ""
  , "!!!!!!!!!!!!!!!!!!!!!!!!!!!!!!!!!!!!!!!!!!"
  , "  EXCEPTION: Double Fault!"
  , "  This is a critical error."
  , "!!!!!!!!!!!!!!!!!!!!!!!!!!!!!!!!!!!!!!!!!!"
  , "" ]

/-- One observable step of a trap handler: a `serial::write_line` call, one
`hlt` instruction, or returning to the interrupted code. -/
inductive HandlerEvent where
  | serialLine (s : String)
  | hlt
  | ret
deriving DecidableEq

/-- Control state of `double_fault_handler`: still emitting the pending
report lines, or inside the final `loop { hlt }`. -/
inductive DFPhase where
  | reporting (pending : List String)
  | halting
deriving DecidableEq

/-- Small-step semantics of `double_fault_handler`: emit the report lines in
order, then enter the halt loop, which issues `hlt` and stays in place. No
step produces `HandlerEvent.ret`: the handler's type is diverging (`-> !`). -/
def dfStep : DFPhase → DFPhase × HandlerEvent
  | DFPhase.reporting (line :: rest) => (DFPhase.reporting rest, HandlerEvent.serialLine line)
  | DFPhase.reporting [] => (DFPhase.halting, HandlerEvent.hlt)
  | DFPhase.halting => (DFPhase.halting, HandlerEvent.hlt)

/-- The handler's entry state: the whole fatal report still pending. -/
def dfInit : DFPhase := DFPhase.reporting double_fault_messages

/-- The handler's control state before step `n`. -/
def dfPhaseAt : Nat → DFPhase
  | 0 => dfInit
  | n + 1 => (dfStep (dfPhaseAt n)).1

/-- The event the handler emits at step `n` of its (infinite) execution. -/
def dfEventAt (n : Nat) : HandlerEvent :=
  (dfStep (dfPhaseAt n)).2

end Interrupts

namespace Vga

/-! ### Basic equations for the VGA operations -/

theorem clear_row_column_position (w : Writer) (row : Nat) :
    (w.clear_row row).column_position = w.column_position := rfl

theorem clear_row_row_position (w : Writer) (row : Nat) :
    (w.clear_row row).row_position = w.row_position := rfl

theorem clear_row_color_code (w : Writer) (row : Nat) :
    (w.clear_row row).color_code = w.color_code := rfl

theorem clear_row_buffer (w : Writer) (row r c : Nat) :
    (w.clear_row row).buffer r c =
      if r = row ∧ c < VGA_WIDTH then blankChar w.color_code else w.buffer r c := rfl

theorem scroll_column_position (w : Writer) :
    (w.scroll).column_position = w.column_position := rfl

theorem scroll_row_position (w : Writer) :
    (w.scroll).row_position = w.row_position := rfl

theorem scroll_color_code (w : Writer) :
    (w.scroll).color_code = w.color_code := rfl

theorem scroll_buffer (w : Writer) (r c : Nat) :
    (w.scroll).buffer r c =
      if r = VGA_HEIGHT - 1 ∧ c < VGA_WIDTH then blankChar w.color_code
      else if r + 1 < VGA_HEIGHT ∧ c < VGA_WIDTH then w.buffer (r + 1) c
      else w.buffer r c := rfl

theorem new_line_column_position (w : Writer) :
    (w.new_line).column_position = 0 := rfl

theorem new_line_of_lt (w : Writer) (h : w.row_position < VGA_HEIGHT - 1) :
    w.new_line = { w with row_position := w.row_position + 1, column_position := 0 } := by
  unfold Writer.new_line
  rw [if_pos h]

theorem new_line_of_ge (w : Writer) (h : ¬ w.row_position < VGA_HEIGHT - 1) :
    w.new_line = { w.scroll with column_position := 0 } := by
  unfold Writer.new_line
  rw [if_neg h]

theorem new_line_row_position (w : Writer) :
    (w.new_line).row_position =
      if w.row_position < VGA_HEIGHT - 1 then w.row_position + 1 else w.row_position := by
  by_cases h : w.row_position < VGA_HEIGHT - 1
  · rw [new_line_of_lt w h, if_pos h]
  · rw [new_line_of_ge w h, if_neg h]
    exact scroll_row_position w

theorem new_line_color_code (w : Writer) :
    (w.new_line).color_code = w.color_code := by
  by_cases h : w.row_position < VGA_HEIGHT - 1
  · rw [new_line_of_lt w h]
  · rw [new_line_of_ge w h]
    exact scroll_color_code w

theorem write_byte_lf (w : Writer) :
    w.write_byte 0x0a = w.new_line := rfl

theorem write_byte_printable (w : Writer) (b : Nat) (hb : b ≠ 0x0a)
    (hcol : w.column_position < VGA_WIDTH) :
    w.write_byte b =
      { w with
        buffer := fun r c =>
          if r = w.row_position ∧ c = w.column_position then
            { ascii_character := b, color_code := w.color_code }
          else w.buffer r c,
        column_position := w.column_position + 1 } := by
  have h2 : ¬ (w.column_position ≥ VGA_WIDTH) := Nat.not_le.mpr hcol
  unfold Writer.write_byte
  rw [if_neg hb]
  simp only [ge_iff_le, if_neg h2]

theorem write_byte_full (w : Writer) (b : Nat) (hb : b ≠ 0x0a)
    (hcol : VGA_WIDTH ≤ w.column_position) :
    w.write_byte b = (w.new_line).write_byte b := by
  have h0 : ¬ ((w.new_line).column_position ≥ VGA_WIDTH) := by
    rw [new_line_column_position]
    decide
  conv_rhs => unfold Writer.write_byte
  unfold Writer.write_byte
  rw [if_neg hb, if_neg hb]
  simp only [ge_iff_le, if_pos hcol, if_neg h0]

theorem write_byte_color_code (w : Writer) (b : Nat) :
    (w.write_byte b).color_code = w.color_code := by
  by_cases hb : b = 0x0a
  · subst hb
    rw [write_byte_lf]
    exact new_line_color_code w
  · by_cases hcol : w.column_position < VGA_WIDTH
    · rw [write_byte_printable w b hb hcol]
    · rw [write_byte_full w b hb (Nat.le_of_not_lt hcol)]
      have h0 : (w.new_line).column_position < VGA_WIDTH := by
        rw [new_line_column_position]
        decide
      rw [write_byte_printable _ b hb h0]
      exact new_line_color_code w

theorem write_string_color_code (s : List Nat) (w : Writer) :
    (w.write_string s).color_code = w.color_code := by
  induction s generalizing w with
  | nil => rfl
  | cons b rest ih =>
    unfold Writer.write_string
    rw [List.foldl_cons]
    split
    · rw [show ∀ u : Writer, (rest.foldl (fun acc byte =>
        if (0x20 ≤ byte ∧ byte ≤ 0x7e) ∨ byte = 0x0a then acc.write_byte byte
        else acc.write_byte 0xfe) u) = u.write_string rest from fun u => rfl,
        ih (w.write_byte b)]
      exact write_byte_color_code w b
    · rw [show ∀ u : Writer, (rest.foldl (fun acc byte =>
        if (0x20 ≤ byte ∧ byte ≤ 0x7e) ∨ byte = 0x0a then acc.write_byte byte
        else acc.write_byte 0xfe) u) = u.write_string rest from fun u => rfl,
        ih (w.write_byte 0xfe)]
      exact write_byte_color_code w 0xfe

theorem foldl_clear_row_column_position (l : List Nat) (w : Writer) :
    (l.foldl Writer.clear_row w).column_position = w.column_position := by
  induction l generalizing w with
  | nil => rfl
  | cons a l ih =>
    rw [List.foldl_cons]
    exact ih (w.clear_row a)

theorem foldl_clear_row_row_position (l : List Nat) (w : Writer) :
    (l.foldl Writer.clear_row w).row_position = w.row_position := by
  induction l generalizing w with
  | nil => rfl
  | cons a l ih =>
    rw [List.foldl_cons]
    exact ih (w.clear_row a)

theorem foldl_clear_row_color_code (l : List Nat) (w : Writer) :
    (l.foldl Writer.clear_row w).color_code = w.color_code := by
  induction l generalizing w with
  | nil => rfl
  | cons a l ih =>
    rw [List.foldl_cons]
    exact ih (w.clear_row a)

theorem foldl_clear_row_buffer (l : List Nat) (w : Writer) (r c : Nat) :
    (l.foldl Writer.clear_row w).buffer r c =
      if r ∈ l ∧ c < VGA_WIDTH then blankChar w.color_code else w.buffer r c := by
  induction l generalizing w with
  | nil => simp
  | cons a l ih =>
    rw [List.foldl_cons, ih (w.clear_row a), clear_row_color_code, clear_row_buffer]
    by_cases hc : c < VGA_WIDTH
    · by_cases hl : r ∈ l
      · simp [hl, hc]
      · by_cases ha : r = a
        · simp [hl, ha, hc]
        · simp [hl, ha, hc]
    · simp [hc]

theorem clear_screen_spec (w : Writer) :
    (w.clear_screen).column_position = 0 ∧
    (w.clear_screen).row_position = 0 ∧
    (w.clear_screen).color_code = w.color_code ∧
    ∀ r c, (w.clear_screen).buffer r c =
      if r < VGA_HEIGHT ∧ c < VGA_WIDTH then blankChar w.color_code
      else w.buffer r c := by
  refine ⟨rfl, rfl, foldl_clear_row_color_code _ w, fun r c => ?_⟩
  show ((List.range VGA_HEIGHT).foldl Writer.clear_row w).buffer r c = _
  rw [foldl_clear_row_buffer]
  simp [List.mem_range]

theorem write_bytes_printable_run (l : List Nat) (w : Writer)
    (hl : ∀ b ∈ l, 0x20 ≤ b ∧ b ≤ 0x7e)
    (hcol : w.column_position + l.length ≤ VGA_WIDTH) :
    (w.write_bytes l).row_position = w.row_position ∧
    (w.write_bytes l).column_position = w.column_position + l.length ∧
    (w.write_bytes l).color_code = w.color_code ∧
    ∀ r c, r ≠ w.row_position → (w.write_bytes l).buffer r c = w.buffer r c := by
  induction l generalizing w with
  | nil => exact ⟨rfl, rfl, rfl, fun r c _ => rfl⟩
  | cons b rest ih =>
    have hb := hl b (List.mem_cons_self b rest)
    have hbne : b ≠ 0x0a := by omega
    have hlen : w.column_position + (rest.length + 1) ≤ VGA_WIDTH := by
      simpa [List.length_cons] using hcol
    have hcolb : w.column_position < VGA_WIDTH := by omega
    have hw1 := write_byte_printable w b hbne hcolb
    have hstep : w.write_bytes (b :: rest) = (w.write_byte b).write_bytes rest := rfl
    obtain ⟨ihr, ihc, ihcc, ihb⟩ := ih (w.write_byte b)
      (fun x hx => hl x (List.mem_cons_of_mem b hx))
      (by rw [hw1]
          show w.column_position + 1 + rest.length ≤ VGA_WIDTH
          omega)
    refine ⟨?_, ?_, ?_, ?_⟩
    · rw [hstep, ihr, hw1]
    · rw [hstep, ihc, hw1]
      show w.column_position + 1 + rest.length = w.column_position + (b :: rest).length
      simp [List.length_cons]
      omega
    · rw [hstep, ihcc, hw1]
    · intro r c hr
      rw [hstep, ihb r c (by rw [hw1]; exact hr), hw1]
      exact if_neg (fun h => hr h.1)

theorem write_byte_scroll_step (w : Writer) (b : Nat) (hb : b ≠ 0x0a)
    (hrow : w.row_position = VGA_HEIGHT - 1) (hcol : VGA_WIDTH ≤ w.column_position) :
    (w.write_byte b).row_position = VGA_HEIGHT - 1 ∧
    (w.write_byte b).column_position = 1 ∧
    (∀ r c, r + 1 < VGA_HEIGHT → c < VGA_WIDTH →
      (w.write_byte b).buffer r c = w.buffer (r + 1) c) ∧
    (w.write_byte b).buffer (VGA_HEIGHT - 1) 0 =
      { ascii_character := b, color_code := w.color_code } ∧
    (∀ c, 1 ≤ c → c < VGA_WIDTH →
      (w.write_byte b).buffer (VGA_HEIGHT - 1) c = blankChar w.color_code) := by
  have hnl : w.new_line = { w.scroll with column_position := 0 } :=
    new_line_of_ge w (by rw [hrow]; exact Nat.lt_irrefl _)
  have hcol0 : ({ w.scroll with column_position := 0 } : Writer).column_position < VGA_WIDTH := by
    show (0 : Nat) < VGA_WIDTH
    decide
  rw [write_byte_full w b hb hcol, hnl, write_byte_printable _ b hb hcol0]
  refine ⟨hrow, rfl, ?_, ?_, ?_⟩
  · intro r c h1 h2
    show (if r = w.row_position ∧ c = 0 then
        { ascii_character := b, color_code := w.scroll.color_code }
      else w.scroll.buffer r c) = w.buffer (r + 1) c
    have hrne : ¬ (r = w.row_position ∧ c = 0) := by
      rintro ⟨hre, _⟩
      rw [hrow] at hre
      omega
    rw [if_neg hrne, scroll_buffer]
    have h3 : ¬ (r = VGA_HEIGHT - 1 ∧ c < VGA_WIDTH) := by
      rintro ⟨hre, _⟩
      omega
    rw [if_neg h3, if_pos ⟨h1, h2⟩]
  · show (if VGA_HEIGHT - 1 = w.row_position ∧ (0 : Nat) = 0 then
        { ascii_character := b, color_code := w.scroll.color_code }
      else w.scroll.buffer (VGA_HEIGHT - 1) 0) =
      { ascii_character := b, color_code := w.color_code }
    rw [if_pos ⟨hrow.symm, rfl⟩, scroll_color_code]
  · intro c h1 h2
    show (if VGA_HEIGHT - 1 = w.row_position ∧ c = 0 then
        { ascii_character := b, color_code := w.scroll.color_code }
      else w.scroll.buffer (VGA_HEIGHT - 1) c) = blankChar w.color_code
    have hcne : ¬ (VGA_HEIGHT - 1 = w.row_position ∧ c = 0) := by
      rintro ⟨_, hce⟩
      omega
    rw [if_neg hcne, scroll_buffer, if_pos ⟨rfl, h2⟩]

theorem writeAtLoop_spec (row color : Nat) (s : List Nat) (col : Nat)
    (buf : VgaBuffer) (r c : Nat) :
    writeAtLoop row color s col buf r c =
      if r = row ∧ col ≤ c ∧ c < col + s.length ∧ c < VGA_WIDTH then
        { ascii_character := substitutePrintable (s.getD (c - col) 0),
          color_code := color }
      else buf r c := by
  induction s generalizing col buf with
  | nil =>
    have hneg : ¬ (r = row ∧ col ≤ c ∧ c < col + List.length ([] : List Nat) ∧ c < VGA_WIDTH) := by
      rintro ⟨_, h1, h2, _⟩
      simp at h2
      omega
    rw [if_neg hneg]
    rfl
  | cons b rest ih =>
    have hlen : List.length (b :: rest) = rest.length + 1 := List.length_cons b rest
    by_cases hcol : col ≥ VGA_WIDTH
    · have hneg : ¬ (r = row ∧ col ≤ c ∧ c < col + List.length (b :: rest) ∧ c < VGA_WIDTH) := by
        rintro ⟨_, h1, _, h3⟩
        omega
      rw [if_neg hneg]
      show (if col ≥ VGA_WIDTH then buf else _) r c = buf r c
      rw [if_pos hcol]
    · have hstep : writeAtLoop row color (b :: rest) col buf =
        writeAtLoop row color rest (col + 1) (fun r c =>
          if r = row ∧ c = col then
            { ascii_character := substitutePrintable b, color_code := color }
          else buf r c) := by
        show (if col ≥ VGA_WIDTH then buf else _) = _
        rw [if_neg hcol]
      rw [hstep, ih]
      by_cases hr : r = row
      · by_cases hc : c = col
        · subst hc
          have hcw : c < VGA_WIDTH := Nat.lt_of_not_le hcol
          have hneg : ¬ (r = row ∧ c + 1 ≤ c ∧ c < c + 1 + rest.length ∧ c < VGA_WIDTH) := by
            rintro ⟨_, h1, _, _⟩
            omega
          have hpos : r = row ∧ c ≤ c ∧ c < c + List.length (b :: rest) ∧ c < VGA_WIDTH :=
            ⟨hr, Nat.le_refl c, by omega, hcw⟩
          rw [if_neg hneg, if_pos hpos]
          simp [hr, Nat.sub_self]
        · by_cases hrange : col + 1 ≤ c ∧ c < col + 1 + rest.length ∧ c < VGA_WIDTH
          · obtain ⟨h1, h2, h3⟩ := hrange
            have hpos1 : r = row ∧ col + 1 ≤ c ∧ c < col + 1 + rest.length ∧ c < VGA_WIDTH :=
              ⟨hr, h1, h2, h3⟩
            have hpos2 : r = row ∧ col ≤ c ∧ c < col + List.length (b :: rest) ∧ c < VGA_WIDTH :=
              ⟨hr, by omega, by omega, h3⟩
            rw [if_pos hpos1, if_pos hpos2]
            have hidx : c - col = (c - (col + 1)) + 1 := by omega
            rw [hidx, List.getD_cons_succ]
          · have hneg1 : ¬ (r = row ∧ col + 1 ≤ c ∧ c < col + 1 + rest.length ∧ c < VGA_WIDTH) := by
              rintro ⟨_, h1, h2, h3⟩
              exact hrange ⟨h1, h2, h3⟩
            have hneg2 : ¬ (r = row ∧ col ≤ c ∧ c < col + List.length (b :: rest) ∧ c < VGA_WIDTH) := by
              rintro ⟨_, h1, h2, h3⟩
              exact hrange ⟨by omega, by omega, h3⟩
            have hnegw : ¬ (r = row ∧ c = col) := fun h => hc h.2
            rw [if_neg hneg1, if_neg hneg2]
            show (if r = row ∧ c = col then
              { ascii_character := substitutePrintable b, color_code := color }
            else buf r c) = buf r c
            rw [if_neg hnegw]
      · have hneg1 : ¬ (r = row ∧ col + 1 ≤ c ∧ c < col + 1 + rest.length ∧ c < VGA_WIDTH) :=
          fun h => hr h.1
        have hneg2 : ¬ (r = row ∧ col ≤ c ∧ c < col + List.length (b :: rest) ∧ c < VGA_WIDTH) :=
          fun h => hr h.1
        have hnegw : ¬ (r = row ∧ c = col) := fun h => hr h.1
        rw [if_neg hneg1, if_neg hneg2]
        show (if r = row ∧ c = col then
          { ascii_character := substitutePrintable b, color_code := color }
        else buf r c) = buf r c
        rw [if_neg hnegw]

theorem write_string_at_column_position (w : Writer) (s : List Nat) (row col color : Nat) :
    (w.write_string_at s row col color).column_position = w.column_position := by
  unfold Writer.write_string_at
  split <;> rfl

theorem write_string_at_row_position (w : Writer) (s : List Nat) (row col color : Nat) :
    (w.write_string_at s row col color).row_position = w.row_position := by
  unfold Writer.write_string_at
  split <;> rfl

theorem write_string_at_color_code (w : Writer) (s : List Nat) (row col color : Nat) :
    (w.write_string_at s row col color).color_code = w.color_code := by
  unfold Writer.write_string_at
  split <;> rfl

theorem write_string_at_buffer (w : Writer) (s : List Nat) (row col color : Nat)
    (hrow : row < VGA_HEIGHT) (r c : Nat) :
    (w.write_string_at s row col color).buffer r c =
      if r = row ∧ col ≤ c ∧ c < col + s.length ∧ c < VGA_WIDTH then
        { ascii_character := substitutePrintable (s.getD (c - col) 0),
          color_code := color }
      else w.buffer r c := by
  unfold Writer.write_string_at
  rw [if_neg (Nat.not_le.mpr hrow)]
  exact writeAtLoop_spec row color s col w.buffer r c

theorem write_string_cons (w : Writer) (b : Nat) (rest : List Nat) :
    w.write_string (b :: rest) =
      (if (0x20 ≤ b ∧ b ≤ 0x7e) ∨ b = 0x0a then w.write_byte b
       else w.write_byte 0xfe).write_string rest := rfl

theorem new_line_row_lt (w : Writer) (h : w.row_position < VGA_HEIGHT) :
    (w.new_line).row_position < VGA_HEIGHT := by
  rw [new_line_row_position]
  split <;> omega

theorem new_line_outside (w : Writer) (r c : Nat)
    (hout : VGA_HEIGHT ≤ r ∨ VGA_WIDTH ≤ c) :
    (w.new_line).buffer r c = w.buffer r c := by
  have hH : VGA_HEIGHT = 25 := rfl
  by_cases h : w.row_position < VGA_HEIGHT - 1
  · rw [new_line_of_lt w h]
  · rw [new_line_of_ge w h]
    show w.scroll.buffer r c = w.buffer r c
    rw [scroll_buffer]
    have h1 : ¬ (r = VGA_HEIGHT - 1 ∧ c < VGA_WIDTH) := by
      rintro ⟨h1, h2⟩
      omega
    have h2 : ¬ (r + 1 < VGA_HEIGHT ∧ c < VGA_WIDTH) := by
      rintro ⟨h1, h2⟩
      omega
    rw [if_neg h1, if_neg h2]

theorem write_byte_row_lt (w : Writer) (b : Nat) (h : w.row_position < VGA_HEIGHT) :
    (w.write_byte b).row_position < VGA_HEIGHT := by
  by_cases hb : b = 0x0a
  · subst hb
    rw [write_byte_lf]
    exact new_line_row_lt w h
  · by_cases hcol : w.column_position < VGA_WIDTH
    · rw [write_byte_printable w b hb hcol]
      exact h
    · rw [write_byte_full w b hb (Nat.le_of_not_lt hcol)]
      have h0 : (w.new_line).column_position < VGA_WIDTH := by
        rw [new_line_column_position]
        decide
      rw [write_byte_printable _ b hb h0]
      exact new_line_row_lt w h

theorem write_byte_outside (w : Writer) (b : Nat) (hrow : w.row_position < VGA_HEIGHT)
    (r c : Nat) (hout : VGA_HEIGHT ≤ r ∨ VGA_WIDTH ≤ c) :
    (w.write_byte b).buffer r c = w.buffer r c := by
  have hW : VGA_WIDTH = 80 := rfl
  by_cases hb : b = 0x0a
  · subst hb
    rw [write_byte_lf]
    exact new_line_outside w r c hout
  · by_cases hcol : w.column_position < VGA_WIDTH
    · rw [write_byte_printable w b hb hcol]
      show (if r = w.row_position ∧ c = w.column_position then _ else w.buffer r c) = w.buffer r c
      have hne : ¬ (r = w.row_position ∧ c = w.column_position) := by
        rintro ⟨h1, h2⟩
        omega
      rw [if_neg hne]
    · rw [write_byte_full w b hb (Nat.le_of_not_lt hcol)]
      have h0 : (w.new_line).column_position < VGA_WIDTH := by
        rw [new_line_column_position]
        decide
      rw [write_byte_printable _ b hb h0]
      have hnlrow : (w.new_line).row_position < VGA_HEIGHT := new_line_row_lt w hrow
      have hnlcol : (w.new_line).column_position = 0 := new_line_column_position w
      show (if r = (w.new_line).row_position ∧ c = (w.new_line).column_position then _
        else (w.new_line).buffer r c) = w.buffer r c
      have hne : ¬ (r = (w.new_line).row_position ∧ c = (w.new_line).column_position) := by
        rintro ⟨h1, h2⟩
        omega
      rw [if_neg hne]
      exact new_line_outside w r c hout

theorem write_string_invariant (s : List Nat) (w : Writer)
    (hrow : w.row_position < VGA_HEIGHT) :
    (w.write_string s).row_position < VGA_HEIGHT ∧
    ∀ r c, VGA_HEIGHT ≤ r ∨ VGA_WIDTH ≤ c →
      (w.write_string s).buffer r c = w.buffer r c := by
  induction s generalizing w with
  | nil => exact ⟨hrow, fun r c _ => rfl⟩
  | cons b rest ih =>
    rw [write_string_cons]
    by_cases hP : (0x20 ≤ b ∧ b ≤ 0x7e) ∨ b = 0x0a
    · rw [if_pos hP]
      obtain ⟨ih1, ih2⟩ := ih (w.write_byte b) (write_byte_row_lt w b hrow)
      exact ⟨ih1, fun r c hout => by
        rw [ih2 r c hout, write_byte_outside w b hrow r c hout]⟩
    · rw [if_neg hP]
      obtain ⟨ih1, ih2⟩ := ih (w.write_byte 0xfe) (write_byte_row_lt w 0xfe hrow)
      exact ⟨ih1, fun r c hout => by
        rw [ih2 r c hout, write_byte_outside w 0xfe hrow r c hout]⟩

end Vga

namespace Serial

theorem write_byte_aux_spec (statuses : Nat → Nat) (byte : Nat) :
    ∀ (fuel i : Nat) (trace : List PortOp),
      write_byte_aux statuses byte i fuel = some trace →
      ∃ k, i ≤ k ∧
        (∀ j, i ≤ j → j < k → is_transmit_empty (statuses j) = false) ∧
        is_transmit_empty (statuses k) = true ∧
        trace = (List.range' i (k - i + 1)).map (fun j => PortOp.readLSR (statuses j)) ++
          [PortOp.writeData byte] := by
  intro fuel
  induction fuel with
  | zero =>
    intro i trace h
    exact absurd h (by simp [write_byte_aux])
  | succ fuel ih =>
    intro i trace h
    simp only [write_byte_aux] at h
    by_cases hv : is_transmit_empty (statuses i) = true
    · rw [if_pos hv] at h
      have htr : [PortOp.readLSR (statuses i), PortOp.writeData byte] = trace :=
        Option.some.inj h
      refine ⟨i, Nat.le_refl i,
        fun j h1 h2 => absurd (Nat.lt_of_le_of_lt h1 h2) (Nat.lt_irrefl i), hv, ?_⟩
      rw [← htr, Nat.sub_self, List.range'_one]
      rfl
    · have hvf : is_transmit_empty (statuses i) = false := by simpa using hv
      rw [if_neg hv] at h
      cases hre : write_byte_aux statuses byte (i + 1) fuel with
      | none =>
        rw [hre] at h
        simp at h
      | some ops =>
        rw [hre, Option.map_some'] at h
        have htr : PortOp.readLSR (statuses i) :: ops = trace := Option.some.inj h
        obtain ⟨k, hk1, hk2, hk3, hk4⟩ := ih (i + 1) ops hre
        refine ⟨k, by omega, ?_, hk3, ?_⟩
        · intro j hj1 hj2
          rcases Nat.eq_or_lt_of_le hj1 with rfl | hj
          · exact hvf
          · exact hk2 j hj hj2
        · rw [← htr, hk4]
          have hki : k - i + 1 = (k - (i + 1) + 1) + 1 := by omega
          rw [hki, List.range'_succ i (k - (i + 1) + 1) 1, List.map_cons]
          rfl

theorem write_byte_aux_none (statuses : Nat → Nat) (byte : Nat) :
    ∀ (fuel i : Nat),
      (∀ j, i ≤ j → j < i + fuel → is_transmit_empty (statuses j) = false) →
      write_byte_aux statuses byte i fuel = none := by
  intro fuel
  induction fuel with
  | zero => intro i _; rfl
  | succ fuel ih =>
    intro i h
    have hv : is_transmit_empty (statuses i) = false :=
      h i (Nat.le_refl i) (by omega)
    simp only [write_byte_aux, hv]
    rw [ih (i + 1) (fun j h1 h2 => h j (by omega) (by omega))]
    rfl

end Serial

namespace Interrupts

theorem dfPhaseAt_halting (n : Nat) (h : 7 ≤ n) : dfPhaseAt n = DFPhase.halting := by
  obtain ⟨m, rfl⟩ : ∃ m, n = m + 7 := ⟨n - 7, by omega⟩
  induction m with
  | zero => rfl
  | succ m ih =>
    show (dfStep (dfPhaseAt (m + 7))).1 = DFPhase.halting
    rw [ih (by omega)]
    rfl

end Interrupts

namespace Vga

/-- C1: for every console state carrying the default attribute (the only
attribute the program's writer ever has, since `set_color` is never called),
`clear_screen` overwrites every cell of the 80×25 surface with the blank
character (space) and the default attribute and resets the cursor to
(0, 0); in particular, for every byte string `s`, `write_string s` followed
immediately by `clear_screen` leaves every cell equal to the blank/default
cell. -/
theorem clear_screen_blanks (w : Writer) (hc : w.color_code = defaultColorCode) :
    (w.clear_screen).row_position = 0 ∧
    (w.clear_screen).column_position = 0 ∧
    (∀ r c, r < VGA_HEIGHT → c < VGA_WIDTH →
      (w.clear_screen).buffer r c = blankChar defaultColorCode) ∧
    (∀ s : List Nat, ∀ r c, r < VGA_HEIGHT → c < VGA_WIDTH →
      ((w.write_string s).clear_screen).buffer r c = blankChar defaultColorCode) := by
  obtain ⟨h1, h2, _, h4⟩ := clear_screen_spec w
  refine ⟨h2, h1, fun r c hr hcw => ?_, fun s r c hr hcw => ?_⟩
  · rw [h4 r c, if_pos ⟨hr, hcw⟩, hc]
  · obtain ⟨_, _, _, h4s⟩ := clear_screen_spec (w.write_string s)
    rw [h4s r c, if_pos ⟨hr, hcw⟩, write_string_color_code, hc]

/-- Witness for C1 at a concrete writer (default attribute over a non-blank
buffer) and a concrete byte string, with the cells sampled at (3, 7) and
(24, 79). -/
theorem clear_screen_blanks_sample :
    (initWriter sampleBuffer).color_code = defaultColorCode ∧
    (((initWriter sampleBuffer).clear_screen).row_position = 0 ∧
     ((initWriter sampleBuffer).clear_screen).column_position = 0 ∧
     ((initWriter sampleBuffer).clear_screen).buffer 3 7 = blankChar defaultColorCode ∧
     (((initWriter sampleBuffer).write_string demoBytes).clear_screen).buffer 24 79 =
       blankChar defaultColorCode) :=
  ⟨rfl,
   (clear_screen_blanks (initWriter sampleBuffer) rfl).1,
   (clear_screen_blanks (initWriter sampleBuffer) rfl).2.1,
   (clear_screen_blanks (initWriter sampleBuffer) rfl).2.2.1 3 7 (by decide) (by decide),
   (clear_screen_blanks (initWriter sampleBuffer) rfl).2.2.2 demoBytes 24 79
     (by decide) (by decide)⟩

/-- C3: for every console state with an in-range cursor row, passing the
line-feed byte to `write_byte` resets the column to 0 and increments the row
by exactly one when the row is not the last one (leaving the surface
untouched), and when the row is the last one it keeps the row, shifts every
row's cells up by one, and blanks the new last row with the attribute
current at the moment of the scroll. -/
theorem write_byte_lf_newline (w : Writer) (hrow : w.row_position < VGA_HEIGHT) :
    (w.write_byte 0x0a).column_position = 0 ∧
    (w.row_position < VGA_HEIGHT - 1 →
      (w.write_byte 0x0a).row_position = w.row_position + 1 ∧
      ∀ r c, (w.write_byte 0x0a).buffer r c = w.buffer r c) ∧
    (w.row_position = VGA_HEIGHT - 1 →
      (w.write_byte 0x0a).row_position = w.row_position ∧
      (∀ r c, r + 1 < VGA_HEIGHT → c < VGA_WIDTH →
        (w.write_byte 0x0a).buffer r c = w.buffer (r + 1) c) ∧
      (∀ c, c < VGA_WIDTH →
        (w.write_byte 0x0a).buffer (VGA_HEIGHT - 1) c = blankChar w.color_code)) := by
  rw [write_byte_lf]
  refine ⟨new_line_column_position w, fun h => ?_, fun h => ?_⟩
  · rw [new_line_of_lt w h]
    exact ⟨rfl, fun r c => rfl⟩
  · have hge : ¬ w.row_position < VGA_HEIGHT - 1 := by omega
    rw [new_line_of_ge w hge]
    refine ⟨scroll_row_position w, fun r c h1 h2 => ?_, fun c h2 => ?_⟩
    · show w.scroll.buffer r c = w.buffer (r + 1) c
      rw [scroll_buffer]
      have hne : ¬ (r = VGA_HEIGHT - 1 ∧ c < VGA_WIDTH) := by
        rintro ⟨he, _⟩
        omega
      rw [if_neg hne, if_pos ⟨h1, h2⟩]
    · show w.scroll.buffer (VGA_HEIGHT - 1) c = blankChar w.color_code
      rw [scroll_buffer, if_pos ⟨rfl, h2⟩]

/-- Witness for C3 at a concrete writer on the last row. -/
theorem write_byte_lf_newline_sample :
    lastRowWriter.row_position < VGA_HEIGHT ∧
    ((lastRowWriter.write_byte 0x0a).column_position = 0 ∧
     (lastRowWriter.row_position < VGA_HEIGHT - 1 →
       (lastRowWriter.write_byte 0x0a).row_position = lastRowWriter.row_position + 1 ∧
       ∀ r c, (lastRowWriter.write_byte 0x0a).buffer r c = lastRowWriter.buffer r c) ∧
     (lastRowWriter.row_position = VGA_HEIGHT - 1 →
       (lastRowWriter.write_byte 0x0a).row_position = lastRowWriter.row_position ∧
       (∀ r c, r + 1 < VGA_HEIGHT → c < VGA_WIDTH →
         (lastRowWriter.write_byte 0x0a).buffer r c = lastRowWriter.buffer (r + 1) c) ∧
       (∀ c, c < VGA_WIDTH →
         (lastRowWriter.write_byte 0x0a).buffer (VGA_HEIGHT - 1) c =
           blankChar lastRowWriter.color_code))) :=
  ⟨by decide, write_byte_lf_newline lastRowWriter (by decide)⟩

/-- C4: `write_string` passes each printable-ASCII (0x20–0x7E) or line-feed
byte to `write_byte` unchanged and passes the fixed unknown-glyph code 0xfe
for every other byte, position by position (adjacent bytes unaffected);
being a total function over the whole list, it consumes the entire input
and never fails on any byte content. -/
theorem write_string_is_mapped_write_bytes (w : Writer) (s : List Nat) :
    w.write_string s = w.write_bytes (s.map substituteByte) := by
  induction s generalizing w with
  | nil => rfl
  | cons b rest ih =>
    rw [write_string_cons, List.map_cons]
    show _ = (w.write_byte (substituteByte b)).write_bytes (rest.map substituteByte)
    unfold substituteByte
    by_cases hP : (0x20 ≤ b ∧ b ≤ 0x7e) ∨ b = 0x0a
    · rw [if_pos hP, if_pos hP]
      exact ih (w.write_byte b)
    · rw [if_neg hP, if_neg hP]
      exact ih (w.write_byte 0xfe)

/-- C6: `write_string_at` leaves the console cursor row, cursor column and
current attribute exactly as they were, for every input, so subsequent
cursor-relative writes start from an unchanged cursor state. -/
theorem write_string_at_cursor_untouched (w : Writer) (s : List Nat)
    (row col color : Nat) :
    (w.write_string_at s row col color).row_position = w.row_position ∧
    (w.write_string_at s row col color).column_position = w.column_position ∧
    (w.write_string_at s row col color).color_code = w.color_code :=
  ⟨write_string_at_row_position w s row col color,
   write_string_at_column_position w s row col color,
   write_string_at_color_code w s row col color⟩

/-- C2: starting at column 0 of any row, writing exactly 80 printable bytes
through `write_byte` causes no scroll (cursor row unchanged, every other
row's cells untouched) and leaves the cursor column at 80; if that row is
the last row, writing an 81st printable byte triggers exactly one scroll:
every row receives the row below it (row 0's prior content is discarded),
the cursor row remains the last row, the byte lands at column 0 of the last
row, the rest of the last row is blank, and the cursor column is 1. -/
theorem full_row_write_then_scroll (w : Writer) (bytes : List Nat) (b : Nat)
    (hcol : w.column_position = 0) (hlen : bytes.length = VGA_WIDTH)
    (hbytes : ∀ x ∈ bytes, 0x20 ≤ x ∧ x ≤ 0x7e) (hb : 0x20 ≤ b ∧ b ≤ 0x7e) :
    ((w.write_bytes bytes).row_position = w.row_position ∧
     (w.write_bytes bytes).column_position = VGA_WIDTH ∧
     ∀ r c, r ≠ w.row_position → (w.write_bytes bytes).buffer r c = w.buffer r c) ∧
    (w.row_position = VGA_HEIGHT - 1 →
      ((w.write_bytes bytes).write_byte b).row_position = VGA_HEIGHT - 1 ∧
      ((w.write_bytes bytes).write_byte b).column_position = 1 ∧
      (∀ r c, r + 1 < VGA_HEIGHT → c < VGA_WIDTH →
        ((w.write_bytes bytes).write_byte b).buffer r c =
          (w.write_bytes bytes).buffer (r + 1) c) ∧
      ((w.write_bytes bytes).write_byte b).buffer (VGA_HEIGHT - 1) 0 =
        { ascii_character := b, color_code := w.color_code } ∧
      (∀ c, 1 ≤ c → c < VGA_WIDTH →
        ((w.write_bytes bytes).write_byte b).buffer (VGA_HEIGHT - 1) c =
          blankChar w.color_code)) := by
  obtain ⟨p1, p2, p3, p4⟩ := write_bytes_printable_run bytes w hbytes (by omega)
  have hcol80 : (w.write_bytes bytes).column_position = VGA_WIDTH := by omega
  refine ⟨⟨p1, hcol80, p4⟩, fun hlast => ?_⟩
  have hbne : b ≠ 0x0a := by omega
  obtain ⟨q1, q2, q3, q4, q5⟩ := write_byte_scroll_step (w.write_bytes bytes) b hbne
    (by omega) (Nat.le_of_eq hcol80.symm)
  rw [p3] at q4 q5
  exact ⟨q1, q2, q3, q4, q5⟩

/-- Witness for C2: a writer at column 0 of the last row, a full row of 80
printable bytes, and an 81st printable byte 0x42. -/
theorem full_row_write_then_scroll_sample :
    lastRowWriter.column_position = 0 ∧
    row80bytes.length = VGA_WIDTH ∧
    lastRowWriter.row_position = VGA_HEIGHT - 1 ∧
    (((lastRowWriter.write_bytes row80bytes).row_position = lastRowWriter.row_position ∧
      (lastRowWriter.write_bytes row80bytes).column_position = VGA_WIDTH ∧
      ∀ r c, r ≠ lastRowWriter.row_position →
        (lastRowWriter.write_bytes row80bytes).buffer r c = lastRowWriter.buffer r c) ∧
     (lastRowWriter.row_position = VGA_HEIGHT - 1 →
       ((lastRowWriter.write_bytes row80bytes).write_byte 0x42).row_position = VGA_HEIGHT - 1 ∧
       ((lastRowWriter.write_bytes row80bytes).write_byte 0x42).column_position = 1 ∧
       (∀ r c, r + 1 < VGA_HEIGHT → c < VGA_WIDTH →
         ((lastRowWriter.write_bytes row80bytes).write_byte 0x42).buffer r c =
           (lastRowWriter.write_bytes row80bytes).buffer (r + 1) c) ∧
       ((lastRowWriter.write_bytes row80bytes).write_byte 0x42).buffer (VGA_HEIGHT - 1) 0 =
         { ascii_character := 0x42, color_code := lastRowWriter.color_code } ∧
       (∀ c, 1 ≤ c → c < VGA_WIDTH →
         ((lastRowWriter.write_bytes row80bytes).write_byte 0x42).buffer (VGA_HEIGHT - 1) c =
           blankChar lastRowWriter.color_code))) :=
  ⟨rfl, by decide, rfl,
   full_row_write_then_scroll lastRowWriter row80bytes 0x42 rfl (by decide)
     (by decide) (by decide)⟩

/-- C5: `write_string_at` with an out-of-range row is a no-op that leaves
the whole state unchanged; with an in-range row it writes the substituted
bytes into that row starting at `col`, and any byte whose column would reach
or exceed 80 is dropped — the buffer characterization shows the write never
touches any other row (no wrapping) and never touches a column at or past
80 (truncation). -/
theorem write_string_at_clamped (w : Writer) (s : List Nat) (row col color : Nat) :
    (VGA_HEIGHT ≤ row → w.write_string_at s row col color = w) ∧
    (row < VGA_HEIGHT → ∀ r c,
      (w.write_string_at s row col color).buffer r c =
        if r = row ∧ col ≤ c ∧ c < col + s.length ∧ c < VGA_WIDTH then
          { ascii_character := substitutePrintable (s.getD (c - col) 0),
            color_code := color }
        else w.buffer r c) := by
  refine ⟨fun hge => ?_, fun hlt r c => write_string_at_buffer w s row col color hlt r c⟩
  unfold Writer.write_string_at
  rw [if_pos hge]

/-- Witness for C5: the out-of-range row 30 is a no-op, and at row 12 the
demo bytes starting at column 78 occupy exactly columns 78 and 79 (the
remaining three bytes are truncated) while row 13 is untouched. -/
theorem write_string_at_clamped_sample :
    VGA_HEIGHT ≤ 30 ∧
    ((initWriter sampleBuffer).write_string_at demoBytes 30 5 0x0a =
      initWriter sampleBuffer) ∧
    (12 : Nat) < VGA_HEIGHT ∧
    ((initWriter sampleBuffer).write_string_at demoBytes 12 78 0x0a).buffer 12 78 =
      { ascii_character := 0x48, color_code := 0x0a } ∧
    ((initWriter sampleBuffer).write_string_at demoBytes 12 78 0x0a).buffer 12 79 =
      { ascii_character := 0xfe, color_code := 0x0a } ∧
    ((initWriter sampleBuffer).write_string_at demoBytes 12 78 0x0a).buffer 13 0 =
      sampleBuffer 13 0 := by
  refine ⟨by decide,
    (write_string_at_clamped (initWriter sampleBuffer) demoBytes 30 5 0x0a).1 (by decide),
    by decide, ?_, ?_, ?_⟩
  · have h := (write_string_at_clamped (initWriter sampleBuffer) demoBytes 12 78 0x0a).2
      (by decide) 12 78
    rw [h]
    decide
  · have h := (write_string_at_clamped (initWriter sampleBuffer) demoBytes 12 78 0x0a).2
      (by decide) 12 79
    rw [h]
    decide
  · have h := (write_string_at_clamped (initWriter sampleBuffer) demoBytes 12 78 0x0a).2
      (by decide) 13 0
    rw [h]
    decide

/-- C9: `write_string_at` never interprets any byte as a newline: a
line-feed byte inside the input is rendered as the substitute glyph 0xfe at
its position, no row other than the target row is touched, and the cursor
does not move — unlike `write_string`, which hands line feeds to
`write_byte`. -/
theorem write_string_at_lf_glyph (w : Writer) (s : List Nat) (row col color i : Nat)
    (hrow : row < VGA_HEIGHT) (hi : i < s.length) (hlf : s.getD i 0 = 0x0a)
    (hcol : col + i < VGA_WIDTH) :
    (w.write_string_at s row col color).buffer row (col + i) =
      { ascii_character := 0xfe, color_code := color } ∧
    (∀ r c, r ≠ row → (w.write_string_at s row col color).buffer r c = w.buffer r c) ∧
    (w.write_string_at s row col color).row_position = w.row_position ∧
    (w.write_string_at s row col color).column_position = w.column_position := by
  refine ⟨?_, fun r c hr => ?_, write_string_at_row_position w s row col color,
    write_string_at_column_position w s row col color⟩
  · rw [write_string_at_buffer w s row col color hrow,
      if_pos ⟨rfl, Nat.le_add_right col i, by omega, hcol⟩]
    have hidx : col + i - col = i := by omega
    rw [hidx, hlf]
    rfl
  · rw [write_string_at_buffer w s row col color hrow]
    exact if_neg (fun h => hr h.1)

/-- Witness for C9: the demo bytes contain a line feed at index 1; written
at (5, 10), the glyph 0xfe lands in cell (5, 11). -/
theorem write_string_at_lf_glyph_sample :
    (5 : Nat) < VGA_HEIGHT ∧
    (1 : Nat) < demoBytes.length ∧
    demoBytes.getD 1 0 = 0x0a ∧
    (10 + 1 : Nat) < VGA_WIDTH ∧
    (((initWriter sampleBuffer).write_string_at demoBytes 5 10 0x0c).buffer 5 (10 + 1) =
      { ascii_character := 0xfe, color_code := 0x0c } ∧
     (∀ r c, r ≠ 5 →
       ((initWriter sampleBuffer).write_string_at demoBytes 5 10 0x0c).buffer r c =
         (initWriter sampleBuffer).buffer r c) ∧
     ((initWriter sampleBuffer).write_string_at demoBytes 5 10 0x0c).row_position =
       (initWriter sampleBuffer).row_position ∧
     ((initWriter sampleBuffer).write_string_at demoBytes 5 10 0x0c).column_position =
       (initWriter sampleBuffer).column_position) :=
  ⟨by decide, by decide, by decide, by decide,
   write_string_at_lf_glyph (initWriter sampleBuffer) demoBytes 5 10 0x0c 1
     (by decide) (by decide) (by decide) (by decide)⟩

/-- C10: every public console operation preserves the invariant that the
cursor row is strictly below 25, and under that invariant no operation ever
writes to a cell outside the 80×25 grid: every cell with row ≥ 25 or
column ≥ 80 is left exactly as it was. -/
theorem console_ops_in_bounds (w : Writer) (b : Nat) (s t : List Nat)
    (row col color : Nat) (hrow : w.row_position < VGA_HEIGHT) :
    ((w.write_byte b).row_position < VGA_HEIGHT ∧
     (w.write_string s).row_position < VGA_HEIGHT ∧
     (w.write_string_at t row col color).row_position < VGA_HEIGHT ∧
     (w.clear_screen).row_position < VGA_HEIGHT) ∧
    (∀ r c, VGA_HEIGHT ≤ r ∨ VGA_WIDTH ≤ c →
      (w.write_byte b).buffer r c = w.buffer r c ∧
      (w.write_string s).buffer r c = w.buffer r c ∧
      (w.write_string_at t row col color).buffer r c = w.buffer r c ∧
      (w.clear_screen).buffer r c = w.buffer r c) := by
  obtain ⟨c1, c2, c3, c4⟩ := clear_screen_spec w
  refine ⟨⟨write_byte_row_lt w b hrow, (write_string_invariant s w hrow).1, ?_, ?_⟩,
    fun r c hout => ⟨write_byte_outside w b hrow r c hout,
      (write_string_invariant s w hrow).2 r c hout, ?_, ?_⟩⟩
  · rw [write_string_at_row_position]
    exact hrow
  · rw [c2]
    decide
  · by_cases hr : row ≥ VGA_HEIGHT
    · show (w.write_string_at t row col color).buffer r c = w.buffer r c
      unfold Writer.write_string_at
      rw [if_pos hr]
    · rw [write_string_at_buffer w t row col color (Nat.lt_of_not_le hr)]
      have hne : ¬ (r = row ∧ col ≤ c ∧ c < col + t.length ∧ c < VGA_WIDTH) := by
        rintro ⟨h1, _, _, h4⟩
        rcases hout with h | h
        · omega
        · omega

      exact if_neg hne
  · rw [c4]
    have hne : ¬ (r < VGA_HEIGHT ∧ c < VGA_WIDTH) := by
      rintro ⟨h1, h2⟩
      rcases hout with h | h
      · omega
      · omega
    exact if_neg hne

/-- Witness for C10 at a concrete in-bounds writer, byte, strings and
geometry. -/
theorem console_ops_in_bounds_sample :
    (initWriter sampleBuffer).row_position < VGA_HEIGHT ∧
    ((((initWriter sampleBuffer).write_byte 0x41).row_position < VGA_HEIGHT ∧
      ((initWriter sampleBuffer).write_string demoBytes).row_position < VGA_HEIGHT ∧
      ((initWriter sampleBuffer).write_string_at demoBytes 3 70 0x2a).row_position < VGA_HEIGHT ∧
      ((initWriter sampleBuffer).clear_screen).row_position < VGA_HEIGHT) ∧
     (∀ r c, VGA_HEIGHT ≤ r ∨ VGA_WIDTH ≤ c →
       ((initWriter sampleBuffer).write_byte 0x41).buffer r c =
         (initWriter sampleBuffer).buffer r c ∧
       ((initWriter sampleBuffer).write_string demoBytes).buffer r c =
         (initWriter sampleBuffer).buffer r c ∧
       ((initWriter sampleBuffer).write_string_at demoBytes 3 70 0x2a).buffer r c =
         (initWriter sampleBuffer).buffer r c ∧
       ((initWriter sampleBuffer).clear_screen).buffer r c =
         (initWriter sampleBuffer).buffer r c)) :=
  ⟨by decide,
   console_ops_in_bounds (initWriter sampleBuffer) 0x41 demoBytes demoBytes 3 70 0x2a
     (by decide)⟩

end Vga

namespace Serial

/-- C7: for every byte and every sequence of line-status readings, serial
`write_byte` never issues the data-register write until a line-status read
with bit 5 (mask 0x20) set has been observed: every terminating run's trace
consists of status reads, none of which is ready except the last, followed
by exactly one data write; and while only busy statuses are observed the
call keeps re-reading the status register and never writes (the fuel-bounded
loop yields no trace). -/
theorem serial_write_byte_gated (statuses : Nat → Nat) (byte fuel : Nat) :
    (∀ trace, write_byte statuses byte fuel = some trace →
      ∃ k, (∀ j, j < k → is_transmit_empty (statuses j) = false) ∧
        is_transmit_empty (statuses k) = true ∧
        trace = (List.range (k + 1)).map (fun j => PortOp.readLSR (statuses j)) ++
          [PortOp.writeData byte]) ∧
    ((∀ j, j < fuel → is_transmit_empty (statuses j) = false) →
      write_byte statuses byte fuel = none) := by
  constructor
  · intro trace h
    obtain ⟨k, _, h2, h3, h4⟩ := write_byte_aux_spec statuses byte fuel 0 trace h
    refine ⟨k, fun j hj => h2 j (Nat.zero_le j) hj, h3, ?_⟩
    rw [h4, List.range_eq_range', Nat.sub_zero]
  · intro h
    exact write_byte_aux_none statuses byte fuel 0 (fun j _ h2 => h j (by omega))

/-- Witness for C7: with a status oracle that is busy twice and then ready,
the produced trace is three reads followed by the data write; with an
always-busy oracle, no write is ever issued. -/
theorem serial_write_byte_gated_sample :
    (write_byte readyAfterTwo 0x55 5 =
      some [PortOp.readLSR 0, PortOp.readLSR 0, PortOp.readLSR 0x20,
        PortOp.writeData 0x55]) ∧
    (∃ k, (∀ j, j < k → is_transmit_empty (readyAfterTwo j) = false) ∧
      is_transmit_empty (readyAfterTwo k) = true ∧
      [PortOp.readLSR 0, PortOp.readLSR 0, PortOp.readLSR 0x20,
        PortOp.writeData 0x55] =
        (List.range (k + 1)).map (fun j => PortOp.readLSR (readyAfterTwo j)) ++
          [PortOp.writeData 0x55]) ∧
    write_byte alwaysBusy 0x55 5 = none :=
  ⟨by decide,
   (serial_write_byte_gated readyAfterTwo 0x55 5).1
     [PortOp.readLSR 0, PortOp.readLSR 0, PortOp.readLSR 0x20, PortOp.writeData 0x55]
     (by decide),
   (serial_write_byte_gated alwaysBusy 0x55 5).2
     (fun j _ => (show is_transmit_empty 0 = false by decide))⟩

end Serial

namespace Interrupts

/-- C8: the double-fault handler never returns: its step-by-step behavior
emits the six-line fatal report on the serial channel exactly once (steps
0–5, in source order) and every later step is the `hlt` instruction of the
terminal halt loop, whose control state stays `halting` forever; no step is
ever a return to the interrupted code. -/
theorem double_fault_handler_diverges :
    (∀ n, dfEventAt n ≠ HandlerEvent.ret) ∧
    (∀ n, dfEventAt n =
      (double_fault_messages.map HandlerEvent.serialLine).getD n HandlerEvent.hlt) ∧
    (∀ n, dfPhaseAt (n + 7) = DFPhase.halting) := by
  have hphase : ∀ n, dfPhaseAt (n + 7) = DFPhase.halting :=
    fun n => dfPhaseAt_halting (n + 7) (by omega)
  have hev : ∀ n, dfEventAt n =
      (double_fault_messages.map HandlerEvent.serialLine).getD n HandlerEvent.hlt := by
    intro n
    rcases Nat.lt_or_ge n 7 with h | h
    · interval_cases n <;> rfl
    · have hlen : (double_fault_messages.map HandlerEvent.serialLine).length ≤ n := by
        have : (double_fault_messages.map HandlerEvent.serialLine).length = 6 := by decide
        omega
      rw [List.getD_eq_default _ _ hlen]
      obtain ⟨m, rfl⟩ : ∃ m, n = m + 7 := ⟨n - 7, by omega⟩
      show (dfStep (dfPhaseAt (m + 7))).2 = HandlerEvent.hlt
      rw [hphase m]
      rfl
  refine ⟨fun n => ?_, hev, hphase⟩
  rw [hev n]
  rcases Nat.lt_or_ge n 6 with h | h
  · interval_cases n <;> decide
  · rw [List.getD_eq_default]
    · decide
    · have : (double_fault_messages.map HandlerEvent.serialLine).length = 6 := by decide
      omega

/-- Witness for C8 at concrete steps: step 9 is not a return, step 2 is the
third report line, and the control state from step 10 on is the halt loop. -/
theorem double_fault_handler_diverges_sample :
    dfEventAt 9 ≠ HandlerEvent.ret ∧
    dfEventAt 2 =
      (double_fault_messages.map HandlerEvent.serialLine).getD 2 HandlerEvent.hlt ∧
    dfPhaseAt (3 + 7) = DFPhase.halting :=
  ⟨double_fault_handler_diverges.1 9,
   double_fault_handler_diverges.2.1 2,
   double_fault_handler_diverges.2.2 3⟩

end Interrupts

end GwenOS
